import Mathlib

/-!
# Verification of the sarv static-file server core

Shallow embedding of src/static-serve.ts: the asset-index builder
(fillStaticPaths / getFilePathInfo / getStaticPaths), the path resolver
(getFileToServe), cache headers (getHeaders), content negotiation and
streaming (sendFile), the conditional-request check and the middleware
dispatch (the serve closure created by staticServe).

JavaScript-specific semantics are modeled explicitly: string truthiness
(undefined and the empty string are falsy), String.prototype.includes as
substring containment, charAt(length - 1) as the last character,
Node's path.extname dotfile rule, and header objects as insert-or-replace
association lists.  External collaborators (the mime database, the
Date.toUTCString formatter) are parameters of the build, since the
repository calls out to the mime and runtime libraries for them.
-/

namespace Sarv

/-- JavaScript truthiness of a possibly-undefined string: an absent value
and the empty string are falsy, every other string is truthy. -/
def jsTruthy : Option String → Bool
  | none => false
  | some s => if s = "" then false else true

/-- Does the character list start with the given list (List-level test used
to model JavaScript substring search)? -/
def listStartsWith : List Char → List Char → Bool
  | _, [] => true
  | [], _ :: _ => false
  | a :: as, b :: bs => a = b && listStartsWith as bs

/-- Does the needle occur contiguously anywhere in the haystack? -/
def listContains (hay needle : List Char) : Bool :=
  match hay with
  | [] => needle.isEmpty
  | c :: t => listStartsWith (c :: t) needle || listContains t needle

/-- JavaScript String.prototype.includes: substring containment. -/
def strContains (hay needle : String) : Bool :=
  listContains hay.data needle.data

/-- JavaScript s.charAt(s.length - 1) === a slash; the empty string has no
last character and compares unequal. -/
def lastCharSlash (s : String) : Bool :=
  match s.data.getLast? with
  | some c => c = '/'
  | none => false

/-- Header values as written by the middleware: strings or numbers. -/
inductive HVal where
  | str (s : String)
  | num (n : Nat)
deriving DecidableEq

/-- A JavaScript header object: keyed entries, keys unique. -/
abbrev Headers := List (String × HVal)

/-- Read a key from a header object. -/
def lookupHdr (k : String) : Headers → Option HVal
  | [] => none
  | (k', v) :: rest => if k' = k then some v else lookupHdr k rest

/-- Assign a key in a header object (replace in place when present,
append otherwise), modeling headers[k] = v. -/
def setHdr (hs : Headers) (k : String) (v : HVal) : Headers :=
  match hs with
  | [] => [(k, v)]
  | (k', v') :: rest => if k' = k then (k, v) :: rest else (k', v') :: setHdr rest k v

/-- A precompressed sibling recorded in the index (CompressedInfo in
src/types). -/
structure CompressedInfo where
  path : String
  size : Nat
deriving DecidableEq

/-- One servable original file in the index (AvailableFile in src/types). -/
structure AvailableFile where
  path : String
  contentType : Option String
  size : Nat
  modifiedTime : String
  etag : String
  gzip : Option CompressedInfo
  br : Option CompressedInfo
deriving DecidableEq

/-- The built index, read as a lookup (AvailableFiles in src/types is an
object keyed by request path). -/
abbrev AvailableFiles := String → Option AvailableFile

/-- The server options consumed by static-serve.ts (StaticServerOptions in
src/types). -/
structure StaticServerOptions where
  host : String
  port : Nat
  index : String
  fallback : Option String
  maxage : Nat
  verbose : Bool

/-- The request fields the middleware reads: the decoded path and the two
headers it consults (absent headers are none). -/
structure Req where
  path : String
  acceptEncoding : Option String
  ifNoneMatch : Option String

/-- Effects performed on the response object, in order. -/
inductive ResEvent where
  | writeHead (status : Nat) (headers : Headers)
  | streamFile (path : String)
  | endWith (body : Option String)
deriving DecidableEq

/-- Outcome of one middleware invocation: either the middleware handled the
response (with the recorded effect trace) or it delegated to next(). -/
inductive MwResult where
  | handled (events : List ResEvent)
  | delegated
deriving DecidableEq

/-- Resolver from src/static-serve.ts getFileToServe: substitute the index
file name for the root path, look up verbatim, retry as a directory index
(charAt check avoids a doubled slash), then try the fallback when it is
truthy. -/
def getFileToServe (staticPaths : AvailableFiles) (indexPath : String)
    (fallbackPath : Option String) (req : Req) : Option AvailableFile :=
  let reqPath := if req.path = "/" then "/" ++ indexPath else req.path
  match staticPaths reqPath with
  | some file => some file
  | none =>
    let indexReqPath :=
      if lastCharSlash reqPath then reqPath ++ indexPath
      else reqPath ++ "/" ++ indexPath
    match staticPaths indexReqPath with
    | some indexFile => some indexFile
    | none =>
      if jsTruthy fallbackPath then staticPaths (fallbackPath.getD "") else none

/-- Cache-validator headers from src/static-serve.ts getHeaders: always
last-modified, etag and the fixed cache-control line; content-type only when
the stored content type is truthy. -/
def getHeaders (file : AvailableFile) (options : StaticServerOptions) : Headers :=
  let headers : Headers :=
    [("last-modified", .str file.modifiedTime),
     ("etag", .str file.etag),
     ("cache-control", .str ("no-cache, must-revalidate, max-age=" ++ toString options.maxage))]
  if jsTruthy file.contentType then
    setHdr headers "content-type" (.str (file.contentType.getD ""))
  else headers

/-- The 304 path from src/static-serve.ts sendNotModified: write the header
set with status 304 and end with no body. -/
def sendNotModified (headers : Headers) : List ResEvent :=
  [.writeHead 304 headers, .endWith none]

/-- Streaming from src/static-serve.ts sendFile: when the accept-encoding
header is truthy and includes the substring br (resp. gzip) and the matching
variant exists, label the encoding, set content-length to that variant's
size, write status 200 with the headers and stream the variant; otherwise
stream the original with its size and no encoding label. -/
def sendFile (file : AvailableFile) (headers : Headers)
    (acceptEncoding : Option String) : List ResEvent :=
  if jsTruthy acceptEncoding then
    let ae := acceptEncoding.getD ""
    match (if strContains ae "br" then file.br else none) with
    | some brInfo =>
        [.writeHead 200 (setHdr (setHdr headers "content-encoding" (.str "br"))
            "content-length" (.num brInfo.size)),
         .streamFile brInfo.path]
    | none =>
      match (if strContains ae "gzip" then file.gzip else none) with
      | some gzipInfo =>
          [.writeHead 200 (setHdr (setHdr headers "content-encoding" (.str "gzip"))
              "content-length" (.num gzipInfo.size)),
           .streamFile gzipInfo.path]
      | none =>
          [.writeHead 200 (setHdr headers "content-length" (.num file.size)),
           .streamFile file.path]
  else
    [.writeHead 200 (setHdr headers "content-length" (.num file.size)),
     .streamFile file.path]

/-- The per-request middleware closure built by src/static-serve.ts
staticServe: resolve, build the validator headers, answer 304 on an exact
if-none-match/etag string match, otherwise stream; on no match call next()
when a next handler exists, else answer 404 Not Found. -/
def serve (staticPaths : AvailableFiles) (options : StaticServerOptions)
    (hasNext : Bool) (req : Req) : MwResult :=
  match getFileToServe staticPaths options.index options.fallback req with
  | some file =>
    let headers := getHeaders file options
    if req.ifNoneMatch = some file.etag then .handled (sendNotModified headers)
    else .handled (sendFile file headers req.acceptEncoding)
  | none =>
    if hasNext then .delegated
    else .handled [.writeHead 404 [], .endWith (some "Not Found")]

/-- Headers of the first writeHead in a trace. -/
def servedHeaders : List ResEvent → Headers
  | .writeHead _ hs :: _ => hs
  | _ => []

/-- Path of the first streamed file in a trace, if any. -/
def servedPath : List ResEvent → Option String
  | [] => none
  | .streamFile p :: _ => some p
  | _ :: rest => servedPath rest

/-- Does the (possibly absent) accept-encoding value contain the token as a
substring?  An absent header contains nothing. -/
def acIncludes (ae : Option String) (token : String) : Bool :=
  match ae with
  | some v => strContains v token
  | none => false

/-- Negotiated variant, as in the spec's Content Negotiator contract:
path and size of the chosen representation plus its encoding label. -/
structure NegotiatedVariant where
  path : String
  size : Nat
  encoding : Option String
deriving DecidableEq

/-- Content negotiation per the spec's Content Negotiator contract:
brotli when the header contains the substring br and a brotli variant
exists, else gzip likewise, else the identity file with no label. -/
def negotiate (file : AvailableFile) (ae : Option String) : NegotiatedVariant :=
  match (if acIncludes ae "br" then file.br else none) with
  | some b => ⟨b.path, b.size, some "br"⟩
  | none =>
    match (if acIncludes ae "gzip" then file.gzip else none) with
    | some g => ⟨g.path, g.size, some "gzip"⟩
    | none => ⟨file.path, file.size, none⟩

/-! ## The ETag hash

src/static-serve.ts computes
xxhash.h32(filePath + "-" + size + "-" + mtime.getTime(), 0xabcd).toString(16).
The xxh32 algorithm of the xxhashjs library is reproduced here over byte
lists, with 32-bit words as naturals reduced modulo 2^32. -/

/-- 2 to the 32nd, the word modulus. -/
def M32 : Nat := 4294967296

/-- First xxh32 prime. -/
def XP1 : Nat := 2654435761
/-- Second xxh32 prime. -/
def XP2 : Nat := 2246822519
/-- Third xxh32 prime. -/
def XP3 : Nat := 3266489917
/-- Fourth xxh32 prime. -/
def XP4 : Nat := 668265263
/-- Fifth xxh32 prime. -/
def XP5 : Nat := 374761393

/-- Rotate a 32-bit word left by r bits. -/
def rotl32 (x r : Nat) : Nat :=
  (((x % M32) <<< r) ||| ((x % M32) >>> (32 - r))) % M32

/-- One accumulator round: acc = rotl(acc + lane * P2, 13) * P1. -/
def xxhRound (acc lane : Nat) : Nat :=
  (rotl32 ((acc + lane * XP2) % M32) 13 * XP1) % M32

/-- A little-endian 32-bit word from four bytes. -/
def word32le (b0 b1 b2 b3 : Nat) : Nat :=
  b0 + (b1 <<< 8) + (b2 <<< 16) + (b3 <<< 24)

/-- Consume 16-byte stripes, updating the four accumulators; returns the
accumulators and the leftover bytes. -/
def xxhStripes (v1 v2 v3 v4 : Nat) :
    List Nat → Nat × Nat × Nat × Nat × List Nat
  | b0 :: b1 :: b2 :: b3 :: b4 :: b5 :: b6 :: b7 ::
    b8 :: b9 :: b10 :: b11 :: b12 :: b13 :: b14 :: b15 :: rest =>
      xxhStripes (xxhRound v1 (word32le b0 b1 b2 b3))
        (xxhRound v2 (word32le b4 b5 b6 b7))
        (xxhRound v3 (word32le b8 b9 b10 b11))
        (xxhRound v4 (word32le b12 b13 b14 b15)) rest
  | rest => (v1, v2, v3, v4, rest)

/-- Consume remaining 4-byte words of the tail. -/
def xxhTail4 (h : Nat) : List Nat → Nat × List Nat
  | b0 :: b1 :: b2 :: b3 :: rest =>
      xxhTail4 ((rotl32 ((h + word32le b0 b1 b2 b3 * XP3) % M32) 17 * XP4) % M32) rest
  | rest => (h, rest)

/-- Consume remaining single bytes of the tail. -/
def xxhTail1 (h : Nat) : List Nat → Nat
  | b :: rest => xxhTail1 ((rotl32 ((h + b * XP5) % M32) 11 * XP1) % M32) rest
  | [] => h

/-- Final avalanche mixing. -/
def xxhAvalanche (h : Nat) : Nat :=
  let h1 := (h ^^^ (h >>> 15)) % M32
  let h2 := (h1 * XP2) % M32
  let h3 := (h2 ^^^ (h2 >>> 13)) % M32
  let h4 := (h3 * XP3) % M32
  (h4 ^^^ (h4 >>> 16)) % M32

/-- The xxh32 hash of a byte sequence with the given seed. -/
def xxh32 (bytes : List Nat) (seed : Nat) : Nat :=
  let len := bytes.length
  let start :=
    if len ≥ 16 then
      let s := xxhStripes ((seed + XP1 + XP2) % M32) ((seed + XP2) % M32)
        (seed % M32) ((seed + (M32 - XP1)) % M32) bytes
      ((rotl32 s.1 1 + rotl32 s.2.1 7 + rotl32 s.2.2.1 12 + rotl32 s.2.2.2.1 18) % M32,
       s.2.2.2.2)
    else ((seed + XP5) % M32, bytes)
  let h := (start.1 + len) % M32
  let t := xxhTail4 h start.2
  xxhAvalanche (xxhTail1 t.1 t.2)

/-- UTF-8 bytes of one character (xxhashjs converts string input to UTF-8
before hashing). -/
def utf8Bytes (c : Char) : List Nat :=
  let n := c.toNat
  if n < 128 then [n]
  else if n < 2048 then [192 ||| (n >>> 6), 128 ||| (n &&& 63)]
  else if n < 65536 then
    [224 ||| (n >>> 12), 128 ||| ((n >>> 6) &&& 63), 128 ||| (n &&& 63)]
  else
    [240 ||| (n >>> 18), 128 ||| ((n >>> 12) &&& 63),
     128 ||| ((n >>> 6) &&& 63), 128 ||| (n &&& 63)]

/-- UTF-8 bytes of a string. -/
def strBytes (s : String) : List Nat :=
  (s.data.map utf8Bytes).flatten

/-- One lowercase hex digit. -/
def hexDigit (d : Nat) : Char :=
  if d < 10 then Char.ofNat (48 + d) else Char.ofNat (87 + d)

/-- Accumulate hex digits of n, least significant last. -/
def natToHexAux (n : Nat) (acc : List Char) : List Char :=
  if h : n = 0 then acc
  else natToHexAux (n / 16) (hexDigit (n % 16) :: acc)
  decreasing_by exact Nat.div_lt_self (Nat.pos_of_ne_zero h) (by omega)

/-- JavaScript Number.prototype.toString(16) for a nonnegative integer:
lowercase hex digits, no padding. -/
def natToHex (n : Nat) : String :=
  if n = 0 then "0" else String.mk (natToHexAux n [])

/-- The ETag of src/static-serve.ts getFilePathInfo: the fixed-seed (0xabcd)
xxh32 hash of absolute-path, byte-size and mtime-in-epoch-milliseconds
joined by dashes, rendered as hex. -/
def computeEtag (filePath : String) (size mtimeMs : Nat) : String :=
  natToHex (xxh32 (strBytes (filePath ++ "-" ++ toString size ++ "-" ++ toString mtimeMs))
    0xabcd)

/-! ## The filesystem snapshot and the index builder

The build walks a directory tree once.  A node is a regular file (with the
stat data the walk reads), a path whose stat call fails, a directory whose
stat succeeds but whose readdir fails, or a readable directory with its
listing.  readdir listings are name/node pairs; names are the entry names
within the directory. -/

mutual
inductive FsTree where
  | file (size : Nat) (mtimeMs : Nat)
  | statError (msg : String)
  | dirUnreadable (msg : String)
  | dir (entries : FsEntries)
deriving DecidableEq

inductive FsEntries where
  | nil
  | cons (name : String) (node : FsTree) (rest : FsEntries)
deriving DecidableEq
end

/-- Look an entry name up in a directory listing. -/
def findEntry (name : String) : FsEntries → Option FsTree
  | .nil => none
  | .cons n node rest => if n = name then some node else findEntry name rest

/-- fse.stat on an existing node: fails on a statError node; succeeds on
files (their byte size) and on directories (a directory's stat size is
platform-dependent and irrelevant here, modeled as 0). -/
def statSize : FsTree → Except String Nat
  | .file size _ => .ok size
  | .statError msg => .error msg
  | .dirUnreadable _ => .ok 0
  | .dir _ => .ok 0

/-- Index of the last dot, counted from the end (0 = last character). -/
def idxOfDotRev : List Char → Option Nat
  | [] => none
  | c :: rest => if c = '.' then some 0 else (idxOfDotRev rest).map (· + 1)

/-- Index of the last dot, counted from the start. -/
def lastDotIdx (cs : List Char) : Option Nat :=
  (idxOfDotRev cs.reverse).map (fun j => cs.length - 1 - j)

/-- Node's path.extname restricted to one path component (the readdir entry
name, which contains no slash): the suffix starting at the last dot, except
that a lone leading dot (a dotfile such as ".gz") and the component ".."
have no extension. -/
def extnameBase (b : String) : String :=
  let cs := b.data
  if cs = ['.', '.'] then ""
  else
    match lastDotIdx cs with
    | none => ""
    | some i => if i = 0 then "" else String.mk (cs.drop i)

/-- The build's external collaborators: the mime package's extension lookup
and the runtime's Date.prototype.toUTCString formatting of the mtime. -/
structure BuildEnv where
  mimeGetType : String → Option String
  toUTCString : Nat → String

/-- Entry construction from src/static-serve.ts getFilePathInfo: content
type from the mime lookup, sibling filePath+".gz" / filePath+".br" variants
when those siblings exist (fse.access) with their stat size (fse.stat, which
can fail), the formatted mtime, and the fixed-seed xxh32 ETag. -/
def getFilePathInfo (env : BuildEnv) (filePath : String) (name : String)
    (size mtimeMs : Nat) (siblings : FsEntries) : Except String AvailableFile := do
  let contentType := env.mimeGetType filePath
  let gzip ← match findEntry (name ++ ".gz") siblings with
    | some node => (statSize node).map (fun sz =>
        some ({ path := filePath ++ ".gz", size := sz } : CompressedInfo))
    | none => pure none
  let br ← match findEntry (name ++ ".br") siblings with
    | some node => (statSize node).map (fun sz =>
        some ({ path := filePath ++ ".br", size := sz } : CompressedInfo))
    | none => pure none
  pure { path := filePath, contentType := contentType, size := size,
         modifiedTime := env.toUTCString mtimeMs,
         etag := computeEtag filePath size mtimeMs,
         gzip := gzip, br := br }

/-- Recursive walk from src/static-serve.ts fillStaticPaths.  listing is
the readdir result of the current directory (used for the sibling
existence/stat checks); rest is the part of it still to process.  Each
kept file is recorded under url = its path relative to the base directory
(absPath.substr(baseDir.length), with path.join writing slash separators);
files whose path.extname is ".br" or ".gz" are skipped.  Any stat or
readdir failure fails the whole walk (the code awaits Promise.all over the
per-entry promises, so the first rejection rejects the build; the
sequential model returns the first error in traversal order). -/
def fillStaticPaths (env : BuildEnv) (baseDir : String) (relDir : String)
    (listing rest : FsEntries) : Except String (List (String × AvailableFile)) :=
  match rest with
  | .nil => .ok []
  | .cons _ (.statError msg) _ => .error msg
  | .cons _ (.dirUnreadable msg) _ => .error msg
  | .cons name (.dir entries) more => do
    let here ← fillStaticPaths env baseDir (relDir ++ "/" ++ name) entries entries
    let there ← fillStaticPaths env baseDir relDir listing more
    .ok (here ++ there)
  | .cons name (.file size mtimeMs) more => do
    let url := relDir ++ "/" ++ name
    let absPath := baseDir ++ url
    let here ←
      if extnameBase name = ".br" || extnameBase name = ".gz" then .ok []
      else (Except.map (fun info => [(url, info)])
        (getFilePathInfo env absPath name size mtimeMs listing))
    let there ← fillStaticPaths env baseDir relDir listing more
    .ok (here ++ there)

/-- src/static-serve.ts getStaticPaths: readdir the root (which fails when
the root is not a readable directory) and walk it. -/
def getStaticPaths (env : BuildEnv) (dir : String) (root : FsTree) :
    Except String (List (String × AvailableFile)) :=
  match root with
  | .dir entries => fillStaticPaths env dir "" entries entries
  | .dirUnreadable msg => .error msg
  | .statError msg => .error msg
  | .file _ _ => .error "ENOTDIR"

/-- Is an Except a success? -/
def exceptIsOk {α : Type} : Except String α → Bool
  | .ok _ => true
  | .error _ => false

mutual
/-- Every stat/readdir on this node and below succeeds. -/
def nodeReadable : FsTree → Bool
  | .file _ _ => true
  | .statError _ => false
  | .dirUnreadable _ => false
  | .dir es => entriesReadable es

/-- Every stat/readdir in this listing and below succeeds. -/
def entriesReadable : FsEntries → Bool
  | .nil => true
  | .cons _ node rest => nodeReadable node && entriesReadable rest
end

/-- The whole build can be read: the root is a directory and every node
under it is readable. -/
def buildReadable : FsTree → Bool
  | .dir es => entriesReadable es
  | _ => false

mutual
/-- Well-formed readdir names below this node: nonempty, no slash (readdir
guarantees both). -/
def nodeValidNames : FsTree → Bool
  | .dir es => entriesValidNames es
  | _ => true

/-- Well-formed readdir names in this listing and below. -/
def entriesValidNames : FsEntries → Bool
  | .nil => true
  | .cons name node rest =>
    !name.data.isEmpty && !name.data.contains '/'
      && nodeValidNames node && entriesValidNames rest
end

/-- Characters of a path after its last slash. -/
def afterLastSlash (cs : List Char) : List Char :=
  (cs.reverse.takeWhile (fun c => c ≠ '/')).reverse

/-- The final path component of a request path. -/
def lastComponent (s : String) : String :=
  String.mk (afterLastSlash s.data)

/-- Does the string end with the given suffix? -/
def strEnds (s suf : String) : Bool :=
  listStartsWith s.data.reverse suf.data.reverse

/-! ## Concrete objects used by the witnesses -/

/-- A concrete index entry. -/
def fileC1 : AvailableFile :=
  ⟨"/d/idx.html", none, 1, "m1", "e1", none, none⟩

/-- A concrete one-entry index. -/
def spC1 : AvailableFiles := fun s => if s = "/idx.html" then some fileC1 else none

/-- A concrete entry with both compressed variants. -/
def fileC2 : AvailableFile :=
  ⟨"/d/a.js", some "application/javascript", 10, "m2", "e2",
   some ⟨"/d/a.js.gz", 4⟩, some ⟨"/d/a.js.br", 3⟩⟩

/-- A concrete entry for the conditional-request witness. -/
def fileC3 : AvailableFile := ⟨"/d/a.txt", none, 2, "m3", "etag3", none, none⟩

/-- A concrete index holding fileC3. -/
def spC3 : AvailableFiles := fun s => if s = "/a.txt" then some fileC3 else none

/-- Concrete server options. -/
def optC3 : StaticServerOptions := ⟨"localhost", 3000, "index.html", none, 60, false⟩

/-- A build environment with an empty mime database and a trivial date
formatter. -/
def envC4a : BuildEnv := ⟨fun _ => none, fun _ => ""⟩

/-- A second, different build environment. -/
def envC4b : BuildEnv :=
  ⟨fun _ => some "text/plain", fun _ => "Thu, 01 Jan 1970 00:00:00 GMT"⟩

/-- The entry the first environment builds for /r/app.js. -/
def fileC4a : AvailableFile :=
  ⟨"/r/app.js", none, 5, "", computeEtag "/r/app.js" 5 7, none, none⟩

/-- The entry the second environment builds for /r/app.js. -/
def fileC4b : AvailableFile :=
  ⟨"/r/app.js", some "text/plain", 5, "Thu, 01 Jan 1970 00:00:00 GMT",
   computeEtag "/r/app.js" 5 7, none, none⟩

/-- A build environment for the key-shape claims. -/
def envC6 : BuildEnv := ⟨fun _ => none, fun _ => ""⟩

/-- A root directory holding only a file literally named ".gz". -/
def treeC6 : FsTree := .dir (.cons ".gz" (.file 1 2) .nil)

/-- A root directory holding app.js and its gzip sibling. -/
def treeC6b : FsTree :=
  .dir (.cons "app.js" (.file 5 7) (.cons "app.js.gz" (.file 3 7) .nil))

/-- The entry built for /r/app.js out of treeC6b. -/
def fileC6 : AvailableFile :=
  ⟨"/r/app.js", none, 5, "", computeEtag "/r/app.js" 5 7,
   some ⟨"/r/app.js.gz", 3⟩, none⟩

/-- The index list built from treeC6b. -/
def lC6 : List (String × AvailableFile) := [("/app.js", fileC6)]

/-- An entry for the cache-header witness. -/
def fileC8 : AvailableFile := ⟨"/r/a.css", some "text/css", 4, "m8", "e8", none, none⟩

/-- Options for the cache-header witness. -/
def optC8 : StaticServerOptions := ⟨"localhost", 3000, "index.html", none, 1209600, false⟩

/-- Options for the unmatched-request witness. -/
def optC9 : StaticServerOptions := ⟨"h", 1, "index.html", some "/fb", 60, false⟩

/-- An entry for the 304-header witness. -/
def fileC10 : AvailableFile :=
  ⟨"/d/b.js", some "application/javascript", 20, "m10", "etag10",
   some ⟨"/d/b.js.gz", 9⟩, some ⟨"/d/b.js.br", 8⟩⟩

/-- An index holding fileC10. -/
def spC10 : AvailableFiles := fun s => if s = "/b.js" then some fileC10 else none

/-- Options for the 304-header witness. -/
def optC10 : StaticServerOptions := ⟨"localhost", 3000, "index.html", none, 120, false⟩

/-! ## Header-object lemmas -/

/-- Reading back the key just assigned. -/
theorem lookupHdr_setHdr_self (hs : Headers) (k : String) (v : HVal) :
    lookupHdr k (setHdr hs k v) = some v := by
  induction hs with
  | nil => simp [setHdr, lookupHdr]
  | cons p rest ih =>
    obtain ⟨k', v'⟩ := p
    by_cases h : k' = k <;> simp [setHdr, h, lookupHdr, ih]

/-- Assigning one key leaves the others unchanged. -/
theorem lookupHdr_setHdr_ne (hs : Headers) (k k' : String) (v : HVal) (h : k' ≠ k) :
    lookupHdr k (setHdr hs k' v) = lookupHdr k hs := by
  induction hs with
  | nil => simp [setHdr, lookupHdr, h]
  | cons p rest ih =>
    obtain ⟨k2, v2⟩ := p
    by_cases h2 : k2 = k' <;> by_cases h3 : k2 = k <;>
      simp_all [setHdr, lookupHdr]

/-! ## C8: the cache-validator header set -/

/-- C8.  For every entry and configured maxAgeSeconds (with a well-formed
content type: the mime library returns null or a nonempty string, never ""),
the header set built by getHeaders contains last-modified = the entry's
modifiedTime, etag = the entry's etag, cache-control = the exact string
"no-cache, must-revalidate, max-age=" followed by the configured maxage,
and contains content-type exactly when the entry's content type is known. -/
theorem getHeaders_contents (file : AvailableFile) (options : StaticServerOptions)
    (hct : file.contentType ≠ some "") :
    lookupHdr "last-modified" (getHeaders file options) = some (.str file.modifiedTime) ∧
    lookupHdr "etag" (getHeaders file options) = some (.str file.etag) ∧
    lookupHdr "cache-control" (getHeaders file options)
      = some (.str ("no-cache, must-revalidate, max-age=" ++ toString options.maxage)) ∧
    lookupHdr "content-type" (getHeaders file options) = file.contentType.map HVal.str := by
  obtain ⟨p, ct, sz, mt, et, gz, br⟩ := file
  cases ct with
  | none => exact ⟨rfl, rfl, rfl, rfl⟩
  | some c =>
    have hc : c ≠ "" := by
      intro h
      exact hct (by simp [h])
    simp [getHeaders, jsTruthy, hc, setHdr, lookupHdr]

/-- Witness for C8 at a concrete css entry. -/
theorem getHeaders_contents_witness :
    lookupHdr "last-modified" (getHeaders fileC8 optC8) = some (.str "m8") ∧
    lookupHdr "etag" (getHeaders fileC8 optC8) = some (.str "e8") ∧
    lookupHdr "cache-control" (getHeaders fileC8 optC8)
      = some (.str "no-cache, must-revalidate, max-age=1209600") ∧
    lookupHdr "content-type" (getHeaders fileC8 optC8) = some (.str "text/css") := by
  have h := getHeaders_contents fileC8 optC8 (by decide)
  exact h

/-! ## C1: the resolution chain -/

/-- C1.  The resolver is the pure function of the index, the index file
name, the (configured, hence nonempty: a truthy fallback option) fallback
path and the request path that returns the first hit of the chain: root
substituted by slash-indexFileName, then the path verbatim, then the path
extended with the index file name (no doubled slash when it already ends in
a slash), then the fallback, else none. -/
theorem getFileToServe_resolution_chain (staticPaths : AvailableFiles)
    (indexPath : String) (fallbackPath : Option String) (req : Req)
    (hfb : fallbackPath ≠ some "") :
    getFileToServe staticPaths indexPath fallbackPath req =
      (let reqPath := if req.path = "/" then "/" ++ indexPath else req.path
       let indexReqPath := if lastCharSlash reqPath then reqPath ++ indexPath
         else reqPath ++ "/" ++ indexPath
       ((staticPaths reqPath).orElse (fun _ => staticPaths indexReqPath)).orElse
         (fun _ => fallbackPath.bind staticPaths)) := by
  have hb : (if jsTruthy fallbackPath then staticPaths (fallbackPath.getD "") else none)
      = fallbackPath.bind staticPaths := by
    cases hfp : fallbackPath with
    | none => rfl
    | some fp =>
      have hne : fp ≠ "" := by
        intro h
        exact hfb (by rw [hfp, h])
      simp [jsTruthy, hne, Option.bind]
  simp only [getFileToServe, hb]
  cases h0 : staticPaths (if req.path = "/" then "/" ++ indexPath else req.path) with
  | some f => simp [Option.orElse]
  | none =>
    cases h1 : staticPaths (if lastCharSlash (if req.path = "/" then "/" ++ indexPath
        else req.path) then (if req.path = "/" then "/" ++ indexPath else req.path) ++ indexPath
        else (if req.path = "/" then "/" ++ indexPath else req.path) ++ "/" ++ indexPath) with
    | some f => simp [Option.orElse, h1]
    | none => simp [Option.orElse, h1]

/-- Witness for C1: the root path resolves through the substituted index
file name. -/
theorem getFileToServe_resolution_chain_witness :
    getFileToServe spC1 "idx.html" (some "/fb.html") ⟨"/", none, none⟩ = some fileC1 := by
  have h := getFileToServe_resolution_chain spC1 "idx.html" (some "/fb.html")
    ⟨"/", none, none⟩ (by decide)
  rw [h]
  rfl

/-! ## C2 and C7: negotiation and streaming -/

/-- C2.  For every entry, header set carrying no prior content-encoding,
and Accept-Encoding value: the streamed file is the brotli variant exactly
when the value contains the substring "br" and the entry has one (with the
response labeled content-encoding br); else the gzip variant exactly when it
contains "gzip" and the entry has one; else the original file with no
encoding label.  Containment is plain substring containment (strContains);
no quality values are parsed, and an absent header contains nothing. -/
theorem sendFile_encoding_negotiation (file : AvailableFile) (headers : Headers)
    (ae : Option String) (hce : lookupHdr "content-encoding" headers = none) :
    servedPath (sendFile file headers ae) =
      (if acIncludes ae "br" && file.br.isSome then file.br.map CompressedInfo.path
       else if acIncludes ae "gzip" && file.gzip.isSome then file.gzip.map CompressedInfo.path
       else some file.path) ∧
    lookupHdr "content-encoding" (servedHeaders (sendFile file headers ae)) =
      (if acIncludes ae "br" && file.br.isSome then some (HVal.str "br")
       else if acIncludes ae "gzip" && file.gzip.isSome then some (HVal.str "gzip")
       else none) := by
  cases ae with
  | none =>
    simp [sendFile, jsTruthy, acIncludes, servedPath, servedHeaders,
      lookupHdr_setHdr_ne, hce]
  | some v =>
    by_cases hv : v = ""
    · subst hv
      have hbr : strContains "" "br" = false := by decide
      have hgz : strContains "" "gzip" = false := by decide
      simp [sendFile, jsTruthy, acIncludes, hbr, hgz, servedPath, servedHeaders,
        lookupHdr_setHdr_ne, hce]
    · cases hcbr : strContains v "br" <;> cases hbrv : file.br <;>
        cases hcgz : strContains v "gzip" <;> cases hgzv : file.gzip <;>
        simp [sendFile, jsTruthy, hv, acIncludes, hcbr, hbrv, hcgz, hgzv,
          servedPath, servedHeaders, lookupHdr_setHdr_self, lookupHdr_setHdr_ne, hce]

/-- Witness for C2: with both variants present and a header naming both
encodings, the brotli variant is streamed and labeled. -/
theorem sendFile_encoding_negotiation_witness :
    servedPath (sendFile fileC2 [] (some "gzip, br")) = some "/d/a.js.br" ∧
    lookupHdr "content-encoding" (servedHeaders (sendFile fileC2 [] (some "gzip, br")))
      = some (HVal.str "br") := by
  have h := sendFile_encoding_negotiation fileC2 [] (some "gzip, br") (by rfl)
  simpa using h

/-- C7.  Every streamed response is exactly a status-200 writeHead carrying
the full header set followed by the streamed body, with content-length
equal to the negotiated variant's recorded size and content-encoding
present exactly when a compressed variant was negotiated (given that the
incoming validator header set carries neither header). -/
theorem sendFile_stream_discipline (file : AvailableFile) (headers : Headers)
    (ae : Option String) (hce : lookupHdr "content-encoding" headers = none) :
    sendFile file headers ae =
      [.writeHead 200 (servedHeaders (sendFile file headers ae)),
       .streamFile (negotiate file ae).path] ∧
    lookupHdr "content-length" (servedHeaders (sendFile file headers ae))
      = some (.num (negotiate file ae).size) ∧
    lookupHdr "content-encoding" (servedHeaders (sendFile file headers ae))
      = (negotiate file ae).encoding.map HVal.str := by
  cases ae with
  | none =>
    simp [sendFile, negotiate, jsTruthy, acIncludes, servedPath, servedHeaders,
      lookupHdr_setHdr_self, lookupHdr_setHdr_ne, hce]
  | some v =>
    by_cases hv : v = ""
    · subst hv
      have hbr : strContains "" "br" = false := by decide
      have hgz : strContains "" "gzip" = false := by decide
      simp [sendFile, negotiate, jsTruthy, acIncludes, hbr, hgz, servedPath,
        servedHeaders, lookupHdr_setHdr_self, lookupHdr_setHdr_ne, hce]
    · cases hcbr : strContains v "br" <;> cases hbrv : file.br <;>
        cases hcgz : strContains v "gzip" <;> cases hgzv : file.gzip <;>
        simp [sendFile, negotiate, jsTruthy, hv, acIncludes, hcbr, hbrv, hcgz, hgzv,
          servedPath, servedHeaders, lookupHdr_setHdr_self, lookupHdr_setHdr_ne, hce]

/-- Witness for C7: with both variants and Accept-Encoding br, the response
is a 200 whose content-encoding is br and whose content-length is the br
sibling's size. -/
theorem sendFile_stream_discipline_witness :
    sendFile fileC2 [] (some "br") =
      [.writeHead 200 (servedHeaders (sendFile fileC2 [] (some "br"))),
       .streamFile "/d/a.js.br"] ∧
    lookupHdr "content-length" (servedHeaders (sendFile fileC2 [] (some "br")))
      = some (.num 3) ∧
    lookupHdr "content-encoding" (servedHeaders (sendFile fileC2 [] (some "br")))
      = some (HVal.str "br") := by
  have h := sendFile_stream_discipline fileC2 [] (some "br") (by rfl)
  simpa using h

/-! ## C3, C9, C10: the middleware -/

/-- sendFile always produces a 200 writeHead followed by a streamed body. -/
theorem sendFile_shape (file : AvailableFile) (headers : Headers)
    (ae : Option String) :
    ∃ hs p, sendFile file headers ae = [.writeHead 200 hs, .streamFile p] := by
  cases ae with
  | none => exact ⟨_, _, rfl⟩
  | some v =>
    by_cases hv : v = ""
    · subst hv
      exact ⟨_, _, rfl⟩
    · have ht : jsTruthy (some v) = true := by simp [jsTruthy, hv]
      cases hbr : (if strContains v "br" then file.br else none) with
      | some b =>
        exact ⟨setHdr (setHdr headers "content-encoding" (.str "br"))
          "content-length" (.num b.size), b.path, by simp [sendFile, ht, hbr]⟩
      | none =>
        cases hgz : (if strContains v "gzip" then file.gzip else none) with
        | some g =>
          exact ⟨setHdr (setHdr headers "content-encoding" (.str "gzip"))
            "content-length" (.num g.size), g.path, by simp [sendFile, ht, hbr, hgz]⟩
        | none =>
          exact ⟨setHdr headers "content-length" (.num file.size), file.path,
            by simp [sendFile, ht, hbr, hgz]⟩

/-- C3.  When the resolver finds an entry: a raw If-None-Match value
string-equal to the entry's etag (plain equality, no weak/strong syntax or
list splitting) yields exactly a 304 with the cache-validator header set
and no body, whatever the Accept-Encoding value is (the result does not
consult it); on mismatch or an absent header the middleware streams. -/
theorem serve_if_none_match (staticPaths : AvailableFiles)
    (options : StaticServerOptions) (hasNext : Bool) (req : Req)
    (file : AvailableFile)
    (hres : getFileToServe staticPaths options.index options.fallback req = some file) :
    (req.ifNoneMatch = some file.etag →
      serve staticPaths options hasNext req
        = .handled [.writeHead 304 (getHeaders file options), .endWith none]) ∧
    (req.ifNoneMatch ≠ some file.etag →
      ∃ hs p, serve staticPaths options hasNext req
        = .handled [.writeHead 200 hs, .streamFile p]) := by
  constructor
  · intro h
    simp [serve, hres, h, sendNotModified]
  · intro h
    obtain ⟨hs, p, hsf⟩ := sendFile_shape file (getHeaders file options) req.acceptEncoding
    refine ⟨hs, p, ?_⟩
    simp [serve, hres, h, hsf]

/-- Witness for C3: a matching If-None-Match yields the 304 even though the
request names both content encodings. -/
theorem serve_if_none_match_witness :
    serve spC3 optC3 false ⟨"/a.txt", some "gzip, br", some "etag3"⟩
      = .handled [.writeHead 304 (getHeaders fileC3 optC3), .endWith none] :=
  (serve_if_none_match spC3 optC3 false ⟨"/a.txt", some "gzip, br", some "etag3"⟩
    fileC3 (by rfl)).1 (by rfl)

/-- C9.  When the resolver finds nothing: with a next handler the
middleware delegates and writes nothing; without one it answers 404 with
the plain-text body Not Found. -/
theorem serve_unmatched (staticPaths : AvailableFiles)
    (options : StaticServerOptions) (hasNext : Bool) (req : Req)
    (hres : getFileToServe staticPaths options.index options.fallback req = none) :
    (hasNext = true → serve staticPaths options hasNext req = .delegated) ∧
    (hasNext = false → serve staticPaths options hasNext req
      = .handled [.writeHead 404 [], .endWith (some "Not Found")]) := by
  constructor <;> intro h <;> simp [serve, hres, h]

/-- Witness for C9: an empty index with no next handler produces the 404. -/
theorem serve_unmatched_witness :
    serve (fun _ => none) optC9 false ⟨"/missing", none, none⟩
      = .handled [.writeHead 404 [], .endWith (some "Not Found")] :=
  (serve_unmatched (fun _ => none) optC9 false ⟨"/missing", none, none⟩ (by rfl)).2 rfl

/-- C10.  A 304 response carries exactly the cache-validator header set:
the ETag check precedes negotiation, so even for an entry with both
compressed variants and whatever Accept-Encoding says, the 304 headers are
getHeaders' output, which never contains content-length or
content-encoding. -/
theorem serve_not_modified_headers (staticPaths : AvailableFiles)
    (options : StaticServerOptions) (hasNext : Bool) (req : Req)
    (file : AvailableFile)
    (hres : getFileToServe staticPaths options.index options.fallback req = some file)
    (hmatch : req.ifNoneMatch = some file.etag) :
    serve staticPaths options hasNext req
      = .handled [.writeHead 304 (getHeaders file options), .endWith none] ∧
    lookupHdr "content-length" (getHeaders file options) = none ∧
    lookupHdr "content-encoding" (getHeaders file options) = none := by
  refine ⟨by simp [serve, hres, hmatch, sendNotModified], ?_, ?_⟩ <;>
  · obtain ⟨p, ct, sz, mt, et, gz, br⟩ := file
    cases ct with
    | none => rfl
    | some c =>
      by_cases hc : c = "" <;> simp [getHeaders, jsTruthy, hc, setHdr, lookupHdr]

/-- Witness for C10: the 304 for an entry with both variants, requested
with Accept-Encoding br, has no content-length and no content-encoding. -/
theorem serve_not_modified_headers_witness :
    serve spC10 optC10 true ⟨"/b.js", some "br", some "etag10"⟩
      = .handled [.writeHead 304 (getHeaders fileC10 optC10), .endWith none] ∧
    lookupHdr "content-length" (getHeaders fileC10 optC10) = none ∧
    lookupHdr "content-encoding" (getHeaders fileC10 optC10) = none :=
  serve_not_modified_headers spC10 optC10 true ⟨"/b.js", some "br", some "etag10"⟩
    fileC10 (by rfl) (by rfl)

/-! ## C4: ETag determinism -/

/-- A successfully built entry records the file's absolute path and the
fixed-seed hash of path, size and mtime as its etag. -/
theorem getFilePathInfo_fields (env : BuildEnv) (filePath name : String)
    (size mtimeMs : Nat) (siblings : FsEntries) (f : AvailableFile)
    (h : getFilePathInfo env filePath name size mtimeMs siblings = .ok f) :
    f.path = filePath ∧ f.etag = computeEtag filePath size mtimeMs := by
  unfold getFilePathInfo at h
  simp only [bind, Except.bind, Except.map, pure, Except.pure] at h
  repeat' split at h
  all_goals cases h
  all_goals exact ⟨rfl, rfl⟩

/-- C4.  The ETag is a deterministic function of the absolute path, byte
size and mtime-in-milliseconds alone: any two entry builds — under any two
environments (mime database, date formatter, i.e. any process) and any two
sibling listings — that agree on those three inputs produce the same ETag,
namely the fixed-seed xxh32 hex digest computeEtag. -/
theorem etag_deterministic (env env' : BuildEnv) (filePath : String)
    (name name' : String) (size mtimeMs : Nat) (siblings siblings' : FsEntries)
    (f f' : AvailableFile)
    (h : getFilePathInfo env filePath name size mtimeMs siblings = .ok f)
    (h' : getFilePathInfo env' filePath name' size mtimeMs siblings' = .ok f') :
    f.etag = f'.etag ∧ f.etag = computeEtag filePath size mtimeMs := by
  obtain ⟨-, he⟩ := getFilePathInfo_fields env filePath name size mtimeMs siblings f h
  obtain ⟨-, he'⟩ := getFilePathInfo_fields env' filePath name' size mtimeMs siblings' f' h'
  exact ⟨he.trans he'.symm, he⟩

/-- Witness for C4: two builds of /r/app.js under different environments
agree on the ETag. -/
theorem etag_deterministic_witness :
    fileC4a.etag = fileC4b.etag ∧ fileC4a.etag = computeEtag "/r/app.js" 5 7 :=
  etag_deterministic envC4a envC4b "/r/app.js" "app.js" "app.js" 5 7 .nil .nil
    fileC4a fileC4b (by rfl) (by rfl)

/-! ## C5: any unreadable node fails the whole build -/

/-- A node found in a readable listing is readable. -/
theorem findEntry_readable (name : String) (listing : FsEntries) (node : FsTree)
    (hl : entriesReadable listing = true) (hf : findEntry name listing = some node) :
    nodeReadable node = true :=
  match listing with
  | .nil => by simp [findEntry] at hf
  | .cons n nd rest => by
    rw [entriesReadable, Bool.and_eq_true] at hl
    rw [findEntry] at hf
    split at hf
    · cases hf
      exact hl.1
    · exact findEntry_readable name rest node hl.2 hf

/-- Stat succeeds on every readable node. -/
theorem statSize_ok (node : FsTree) (h : nodeReadable node = true) :
    ∃ n, statSize node = .ok n := by
  cases node with
  | file size mtimeMs => exact ⟨size, rfl⟩
  | statError msg => simp [nodeReadable] at h
  | dirUnreadable msg => exact ⟨0, rfl⟩
  | dir es => exact ⟨0, rfl⟩

/-- Entry construction succeeds whenever the surrounding listing is fully
readable (the sibling stats are the only fallible steps). -/
theorem getFilePathInfo_ok (env : BuildEnv) (filePath name : String)
    (size mtimeMs : Nat) (listing : FsEntries)
    (hl : entriesReadable listing = true) :
    exceptIsOk (getFilePathInfo env filePath name size mtimeMs listing) = true := by
  unfold getFilePathInfo
  simp only [bind, Except.bind, Except.map, pure, Except.pure]
  cases hgz : findEntry (name ++ ".gz") listing with
  | some nd =>
    obtain ⟨n, hn⟩ := statSize_ok nd (findEntry_readable _ _ _ hl hgz)
    cases hbr : findEntry (name ++ ".br") listing with
    | some nd' =>
      obtain ⟨n', hn'⟩ := statSize_ok nd' (findEntry_readable _ _ _ hl hbr)
      simp [hn, hn', Except.pure, exceptIsOk]
    | none => simp [hn, Except.pure, exceptIsOk]
  | none =>
    cases hbr : findEntry (name ++ ".br") listing with
    | some nd' =>
      obtain ⟨n', hn'⟩ := statSize_ok nd' (findEntry_readable _ _ _ hl hbr)
      simp [hn', Except.pure, exceptIsOk]
    | none => simp [exceptIsOk]

/-- The walk succeeds over a fully readable listing. -/
theorem fill_ok_of_readable (env : BuildEnv) (baseDir relDir : String)
    (listing rest : FsEntries) (hl : entriesReadable listing = true)
    (hr : entriesReadable rest = true) :
    exceptIsOk (fillStaticPaths env baseDir relDir listing rest) = true :=
  match rest with
  | .nil => by simp [fillStaticPaths, exceptIsOk]
  | .cons name (.statError msg) more => by
    rw [entriesReadable, Bool.and_eq_true] at hr
    simp [nodeReadable] at hr
  | .cons name (.dirUnreadable msg) more => by
    rw [entriesReadable, Bool.and_eq_true] at hr
    simp [nodeReadable] at hr
  | .cons name (.dir es) more => by
    rw [entriesReadable, Bool.and_eq_true] at hr
    have hes : entriesReadable es = true := by simpa [nodeReadable] using hr.1
    have ih1 := fill_ok_of_readable env baseDir (relDir ++ "/" ++ name) es es hes hes
    have ih2 := fill_ok_of_readable env baseDir relDir listing more hl hr.2
    simp only [fillStaticPaths, bind, Except.bind]
    rcases hok1 : fillStaticPaths env baseDir (relDir ++ "/" ++ name) es es with e | l
    · rw [hok1] at ih1
      simp [exceptIsOk] at ih1
    · rcases hok2 : fillStaticPaths env baseDir relDir listing more with e2 | l2
      · rw [hok2] at ih2
        simp [exceptIsOk] at ih2
      · simp [exceptIsOk]
  | .cons name (.file size mtimeMs) more => by
    rw [entriesReadable, Bool.and_eq_true] at hr
    have ih2 := fill_ok_of_readable env baseDir relDir listing more hl hr.2
    simp only [fillStaticPaths, bind, Except.bind]
    rcases hok2 : fillStaticPaths env baseDir relDir listing more with e2 | l2
    · rw [hok2] at ih2
      simp [exceptIsOk] at ih2
    · by_cases hext : (extnameBase name = ".br" || extnameBase name = ".gz") = true
      · simp [hext, exceptIsOk]
      · have hg := getFilePathInfo_ok env (baseDir ++ (relDir ++ "/" ++ name)) name
          size mtimeMs listing hl
        rcases hgfi : getFilePathInfo env (baseDir ++ (relDir ++ "/" ++ name)) name
            size mtimeMs listing with e | info
        · rw [hgfi] at hg
          simp [exceptIsOk] at hg
        · simp [hext, hgfi, Except.map, exceptIsOk]

/-- The walk fails as soon as its remaining listing holds any unreadable
node. -/
theorem fill_error_of_unreadable (env : BuildEnv) (baseDir relDir : String)
    (listing rest : FsEntries) (hr : entriesReadable rest = false) :
    exceptIsOk (fillStaticPaths env baseDir relDir listing rest) = false :=
  match rest with
  | .nil => by simp [entriesReadable] at hr
  | .cons name (.statError msg) more => by
    simp [fillStaticPaths, exceptIsOk]
  | .cons name (.dirUnreadable msg) more => by
    simp [fillStaticPaths, exceptIsOk]
  | .cons name (.dir es) more => by
    simp only [fillStaticPaths, bind, Except.bind]
    rcases hok1 : fillStaticPaths env baseDir (relDir ++ "/" ++ name) es es with e | l
    · simp [exceptIsOk]
    · have hes : entriesReadable es = true := by
        by_contra hno
        have hbf : entriesReadable es = false := by
          cases h' : entriesReadable es
          · rfl
          · exact absurd h' hno
        have hfail := fill_error_of_unreadable env baseDir (relDir ++ "/" ++ name) es es hbf
        rw [hok1] at hfail
        simp [exceptIsOk] at hfail
      have hmore : entriesReadable more = false := by
        simpa [entriesReadable, nodeReadable, hes] using hr
      have ih := fill_error_of_unreadable env baseDir relDir listing more hmore
      rcases hok2 : fillStaticPaths env baseDir relDir listing more with e2 | l2
      · simp [exceptIsOk]
      · rw [hok2] at ih
        simp [exceptIsOk] at ih
  | .cons name (.file size mtimeMs) more => by
    have hmore : entriesReadable more = false := by
      simpa [entriesReadable, nodeReadable] using hr
    have ih := fill_error_of_unreadable env baseDir relDir listing more hmore
    simp only [fillStaticPaths, bind, Except.bind]
    rcases hok2 : fillStaticPaths env baseDir relDir listing more with e2 | l2
    · by_cases hext : (extnameBase name = ".br" || extnameBase name = ".gz") = true
      · simp [hext, exceptIsOk]
      · rcases hgfi : getFilePathInfo env (baseDir ++ (relDir ++ "/" ++ name)) name
            size mtimeMs listing with e | info
        · simp [hext, hgfi, Except.map, exceptIsOk]
        · simp [hext, hgfi, Except.map, exceptIsOk]
    · rw [hok2] at ih
      simp [exceptIsOk] at ih

/-- C5.  The index build succeeds exactly when the root is a readable
directory and every readdir/stat under it succeeds: any unreadable
directory or file anywhere in the traversal fails build(rootDir) as a
whole, returning the error (the first one in traversal order of the
sequential model of the Promise.all join) and no index at all — an
Except.error carries no partial index. -/
theorem getStaticPaths_fails_on_unreadable (env : BuildEnv) (dir : String)
    (root : FsTree) :
    exceptIsOk (getStaticPaths env dir root) = buildReadable root := by
  cases root with
  | file size mtimeMs => rfl
  | statError msg => rfl
  | dirUnreadable msg => rfl
  | dir es =>
    cases h : entriesReadable es with
    | true =>
      have := fill_ok_of_readable env dir "" es es h h
      simpa [getStaticPaths, buildReadable, h] using this
    | false =>
      have := fill_error_of_unreadable env dir "" es es h
      simpa [getStaticPaths, buildReadable, h] using this

/-! ## C6: the shape of index keys -/

/-- The character list of a constructed string. -/
theorem data_mk (l : List Char) : (String.mk l).data = l := rfl

/-- The constructed string of a character list. -/
theorem mk_data (s : String) : String.mk s.data = s := rfl

/-- Appending strings concatenates their character lists. -/
theorem dataAppend (a b : String) : (a ++ b).data = a.data ++ b.data := rfl

/-- takeWhile over a true block followed by a failing element takes the
block. -/
theorem takeWhile_append_stop (p : Char → Bool) (ys : List Char) (z : Char)
    (zs : List Char) (hy : ∀ c ∈ ys, p c = true) (hz : p z = false) :
    (ys ++ z :: zs).takeWhile p = ys := by
  induction ys with
  | nil => simp [List.takeWhile_cons, hz]
  | cons y ys ih =>
    have h1 := hy y (by simp)
    have h2 : ∀ c ∈ ys, p c = true := fun c hc => hy c (by simp [hc])
    simp [List.takeWhile_cons, h1, ih h2]

/-- The component after the last slash of a slash-free tail. -/
theorem afterLastSlash_append (xs nm : List Char) (h : '/' ∉ nm) :
    afterLastSlash (xs ++ '/' :: nm) = nm := by
  have hy : ∀ c ∈ nm.reverse, (decide (c ≠ '/')) = true := by
    intro c hc
    rw [List.mem_reverse] at hc
    simp only [decide_eq_true_eq]
    intro heq
    exact h (heq ▸ hc)
  unfold afterLastSlash
  rw [List.reverse_append, List.reverse_cons, List.append_assoc,
    List.singleton_append]
  rw [takeWhile_append_stop _ _ _ _ hy (by simp)]
  exact List.reverse_reverse nm

/-- A path of the form prefixed slash component keeps a slash first when the
prefix is empty or itself starts with a slash. -/
theorem head_slash_append (rd nm : List Char)
    (h : rd = [] ∨ rd.head? = some '/') :
    (rd ++ '/' :: nm).head? = some '/' := by
  rcases h with h | h
  · subst h
    rfl
  · cases rd with
    | nil => rfl
    | cons a l =>
      simp only [List.head?_cons] at h
      simp [h]

/-- When a request path of the form prefix-slash-component ends in three
non-slash characters, those are the tail of the component. -/
theorem ends_in_component (pre nm : List Char) (url : String)
    (s0 s1 s2 : Char)
    (hurl : url.data = pre ++ '/' :: nm)
    (hend : listStartsWith url.data.reverse [s0, s1, s2] = true)
    (hs0 : s0 ≠ '/') (hs1 : s1 ≠ '/') (hs2 : s2 ≠ '/') :
    ∃ m, nm = m ++ [s2, s1, s0] := by
  have hrev : url.data.reverse = nm.reverse ++ '/' :: pre.reverse := by
    rw [hurl]
    simp
  rw [hrev] at hend
  rcases hnr : nm.reverse with _ | ⟨r0, rtl⟩
  · rw [hnr] at hend
    simp [listStartsWith] at hend
    exact absurd hend.1.symm hs0
  · rcases rtl with _ | ⟨r1, rtl2⟩
    · rw [hnr] at hend
      simp [listStartsWith] at hend
      exact absurd hend.2.1.symm hs1
    · rcases rtl2 with _ | ⟨r2, rr⟩
      · rw [hnr] at hend
        simp [listStartsWith] at hend
        exact absurd hend.2.2.symm hs2
      · rw [hnr] at hend
        simp [listStartsWith] at hend
        refine ⟨rr.reverse, ?_⟩
        have hnm : nm = (r0 :: r1 :: r2 :: rr).reverse := by
          rw [← hnr, List.reverse_reverse]
        rw [hnm, hend.1, hend.2.1, hend.2.2]
        simp

/-- Node extname of a component ending in dot plus two non-dot characters:
empty for the bare dotfile, the three-character suffix otherwise. -/
theorem extnameBase_dot3 (m : List Char) (a b : Char)
    (ha : a ≠ '.') (hb : b ≠ '.') :
    extnameBase (String.mk (m ++ ['.', a, b]))
      = if m = [] then "" else String.mk ['.', a, b] := by
  have h1 : idxOfDotRev (m ++ ['.', a, b]).reverse = some 2 := by
    rw [List.reverse_append]
    simp [idxOfDotRev, ha, hb]
  have h2 : lastDotIdx (m ++ ['.', a, b]) = some m.length := by
    unfold lastDotIdx
    rw [h1]
    simp only [Option.map_some']
    congr 1
    simp
  have hne2 : m ++ ['.', a, b] ≠ ['.', '.'] := by
    intro h
    have := congrArg List.length h
    simp at this
  unfold extnameBase
  simp only [data_mk]
  rw [if_neg hne2, h2]
  show (if m.length = 0 then "" else String.mk ((m ++ ['.', a, b]).drop m.length))
    = if m = [] then "" else String.mk ['.', a, b]
  cases m with
  | nil => simp
  | cons x xs =>
    have hlen : (x :: xs).length ≠ 0 := by simp
    rw [if_neg hlen, if_neg (List.cons_ne_nil x xs), List.drop_left]

/-- Keys produced by the walk: below a relative directory that is empty or
slash-led, every produced key splits as prefix-slash-name for a nonempty,
slash-free readdir name whose Node extension is neither ".br" nor ".gz",
it starts with a slash, and its entry's absolute path is base ++ key. -/
theorem fill_key_shape (env : BuildEnv) (baseDir relDir : String)
    (listing rest : FsEntries)
    (hrel : relDir.data = [] ∨ relDir.data.head? = some '/')
    (hv : entriesValidNames rest = true)
    (l : List (String × AvailableFile))
    (hb : fillStaticPaths env baseDir relDir listing rest = .ok l)
    (url : String) (f : AvailableFile) (hm : (url, f) ∈ l) :
    ∃ pre nm, url.data = pre ++ '/' :: nm ∧ nm ≠ [] ∧ '/' ∉ nm ∧
      extnameBase (String.mk nm) ≠ ".br" ∧ extnameBase (String.mk nm) ≠ ".gz" ∧
      url.data.head? = some '/' ∧ f.path = baseDir ++ url :=
  match rest with
  | .nil => by
    simp only [fillStaticPaths] at hb
    injection hb with h
    subst h
    simp at hm
  | .cons name (.statError msg) more => by
    simp [fillStaticPaths] at hb
  | .cons name (.dirUnreadable msg) more => by
    simp [fillStaticPaths] at hb
  | .cons name (.dir es) more => by
    rw [entriesValidNames] at hv
    simp only [Bool.and_eq_true] at hv
    obtain ⟨⟨⟨hv1, hv2⟩, hv3⟩, hv4⟩ := hv
    have hdataurl : (relDir ++ "/" ++ name).data
        = relDir.data ++ '/' :: name.data := by
      rw [dataAppend, dataAppend, List.append_assoc]
      rfl
    simp only [fillStaticPaths, bind, Except.bind] at hb
    rcases hh : fillStaticPaths env baseDir (relDir ++ "/" ++ name) es es with e | here
    · rw [hh] at hb
      simp at hb
    · rw [hh] at hb
      rcases ht : fillStaticPaths env baseDir relDir listing more with e2 | there
      · rw [ht] at hb
        simp at hb
      · rw [ht] at hb
        simp only [Except.ok.injEq] at hb
        subst hb
        rcases List.mem_append.mp hm with hml | hmr
        · have hrel' : (relDir ++ "/" ++ name).data = [] ∨
              (relDir ++ "/" ++ name).data.head? = some '/' := by
            right
            rw [hdataurl]
            exact head_slash_append relDir.data name.data hrel
          have hves : entriesValidNames es = true := by
            simpa [nodeValidNames] using hv3
          exact fill_key_shape env baseDir (relDir ++ "/" ++ name) es es hrel'
            hves here hh url f hml
        · exact fill_key_shape env baseDir relDir listing more hrel hv4 there ht
            url f hmr
  | .cons name (.file size mtimeMs) more => by
    rw [entriesValidNames] at hv
    simp only [Bool.and_eq_true] at hv
    obtain ⟨⟨⟨hv1, hv2⟩, hv3⟩, hv4⟩ := hv
    have hnmne : name.data ≠ [] := by
      cases hd : name.data with
      | nil => rw [hd] at hv1; simp at hv1
      | cons x xs => simp [hd]
    have hnoslash : '/' ∉ name.data := by
      intro hmem
      have hc := List.elem_eq_true_of_mem hmem
      rw [show name.data.contains '/' = List.elem '/' name.data from rfl, hc] at hv2
      simp at hv2
    have hdataurl : (relDir ++ "/" ++ name).data
        = relDir.data ++ '/' :: name.data := by
      rw [dataAppend, dataAppend, List.append_assoc]
      rfl
    simp only [fillStaticPaths, bind, Except.bind] at hb
    by_cases hext : (extnameBase name = ".br" || extnameBase name = ".gz") = true
    · rw [if_pos hext] at hb
      rcases ht : fillStaticPaths env baseDir relDir listing more with e2 | there
      · rw [ht] at hb
        simp at hb
      · rw [ht] at hb
        simp only [Except.ok.injEq, List.nil_append] at hb
        subst hb
        exact fill_key_shape env baseDir relDir listing more hrel hv4 there ht
          url f hm
    · rw [if_neg hext] at hb
      rcases hg : getFilePathInfo env (baseDir ++ (relDir ++ "/" ++ name)) name
          size mtimeMs listing with e | info
      · rw [hg] at hb
        simp [Except.map] at hb
      · rw [hg] at hb
        rcases ht : fillStaticPaths env baseDir relDir listing more with e2 | there
        · rw [ht] at hb
          simp [Except.map] at hb
        · rw [ht] at hb
          simp only [Except.map, Except.ok.injEq, List.singleton_append] at hb
          subst hb
          rcases List.mem_cons.mp hm with hml | hmr
          · have hu : url = relDir ++ "/" ++ name := congrArg Prod.fst hml
            have hf : f = info := congrArg Prod.snd hml
            rw [Bool.or_eq_true] at hext
            push_neg at hext
            refine ⟨relDir.data, name.data, ?_, hnmne, hnoslash, ?_, ?_, ?_, ?_⟩
            · rw [hu]
              exact hdataurl
            · rw [mk_data]
              exact fun h => hext.1 (by simp [h])
            · rw [mk_data]
              exact fun h => hext.2 (by simp [h])
            · rw [hu, hdataurl]
              exact head_slash_append relDir.data name.data hrel
            · have hp := (getFilePathInfo_fields env (baseDir ++ (relDir ++ "/" ++ name))
                name size mtimeMs listing info hg).1
              rw [hf, hu, hp]
          · exact fill_key_shape env baseDir relDir listing more hrel hv4 there ht
              url f hmr

/-- C6 counterexample.  The claim that no index key ends in ".gz" fails on
the code: a file literally named ".gz" (extname "" by Node's dotfile rule)
is indexed, and its key "/.gz" ends in ".gz". -/
theorem staticPaths_key_dotfile_counterexample :
    Except.map (fun l => l.map Prod.fst) (getStaticPaths envC6 "/r" treeC6)
      = .ok ["/.gz"] ∧
    strEnds "/.gz" ".gz" = true := by
  constructor
  · rfl
  · decide

/-- C6 amended.  Every key of a build over well-formed readdir names starts
with a slash, its entry's absolute path is the base directory followed by
the key (so the key is the root-relative path with slash separators), its
final component's Node extension is never ".gz" or ".br" — and therefore a
key can end in ".gz" or ".br" only when its final component is exactly the
dotfile ".gz" or ".br". -/
theorem getStaticPaths_key_shape (env : BuildEnv) (baseDir : String)
    (root : FsTree) (hv : nodeValidNames root = true)
    (l : List (String × AvailableFile))
    (hb : getStaticPaths env baseDir root = .ok l)
    (url : String) (f : AvailableFile) (hm : (url, f) ∈ l) :
    url.data.head? = some '/' ∧ f.path = baseDir ++ url ∧
    extnameBase (lastComponent url) ≠ ".gz" ∧
    extnameBase (lastComponent url) ≠ ".br" ∧
    (strEnds url ".gz" = true → lastComponent url = ".gz") ∧
    (strEnds url ".br" = true → lastComponent url = ".br") := by
  cases root with
  | file size mtimeMs => simp [getStaticPaths] at hb
  | statError msg => simp [getStaticPaths] at hb
  | dirUnreadable msg => simp [getStaticPaths] at hb
  | dir es =>
    have hv' : entriesValidNames es = true := by
      simpa [nodeValidNames] using hv
    obtain ⟨pre, nm, hurl, hne, hns, hbr, hgz, hhead, hpath⟩ :=
      fill_key_shape env baseDir "" es es (Or.inl rfl) hv' l
        (by simpa [getStaticPaths] using hb) url f hm
    have hlast : lastComponent url = String.mk nm := by
      unfold lastComponent
      rw [hurl, afterLastSlash_append pre nm hns]
    refine ⟨hhead, hpath, ?_, ?_, ?_, ?_⟩
    · rw [hlast]
      exact hgz
    · rw [hlast]
      exact hbr
    · intro hend
      have hend' : listStartsWith url.data.reverse ['z', 'g', '.'] = true := hend
      obtain ⟨m, hma⟩ := ends_in_component pre nm url 'z' 'g' '.' hurl hend'
        (by decide) (by decide) (by decide)
      have hx := extnameBase_dot3 m 'g' 'z' (by decide) (by decide)
      rw [← hma] at hx
      by_cases hme : m = []
      · rw [hlast, hma, hme]
        rfl
      · rw [if_neg hme] at hx
        exact absurd (hx.trans (by rfl)) hgz
    · intro hend
      have hend' : listStartsWith url.data.reverse ['r', 'b', '.'] = true := hend
      obtain ⟨m, hma⟩ := ends_in_component pre nm url 'r' 'b' '.' hurl hend'
        (by decide) (by decide) (by decide)
      have hx := extnameBase_dot3 m 'b' 'r' (by decide) (by decide)
      rw [← hma] at hx
      by_cases hme : m = []
      · rw [hlast, hma, hme]
        rfl
      · rw [if_neg hme] at hx
        exact absurd (hx.trans (by rfl)) hbr

/-- Witness for the amended C6 at the concrete app.js build: its key starts
with a slash, recovers the absolute path, and has a non-compressed
extension. -/
theorem getStaticPaths_key_shape_witness :
    ("/app.js" : String).data.head? = some '/' ∧
    fileC6.path = "/r" ++ "/app.js" ∧
    extnameBase (lastComponent "/app.js") ≠ ".gz" ∧
    extnameBase (lastComponent "/app.js") ≠ ".br" ∧
    (strEnds "/app.js" ".gz" = true → lastComponent "/app.js" = ".gz") ∧
    (strEnds "/app.js" ".br" = true → lastComponent "/app.js" = ".br") :=
  getStaticPaths_key_shape envC6 "/r" treeC6b (by decide) lC6 (by rfl)
    "/app.js" fileC6 (by simp [lC6])

end Sarv
